import Mathlib

/-
Verification of the medicine-label segmenter/tagger
(src/Software/hd_medi_data.py) against its natural-language specification.

Shallow embedding conventions:
* Python strings are `List Char` (abbreviated `Str`); string literals enter
  through `String.toList`.
* Python dictionaries (which preserve insertion order and overwrite in place
  on key reassignment) are association lists; re-assignment of an existing
  key is modelled by `dictInsert`, which keeps the key's original position.
* `re.search(word, content, re.IGNORECASE)` is modelled for the literal,
  metacharacter-free patterns that appear in every verified configuration:
  for such patterns a regex search is exactly a case-insensitive substring
  test (`re_search_ci`).  Likewise `\d`/`\s` are modelled by their ASCII
  meaning, which covers all inputs considered here.
* Fallible code (the `KeyError`-raising subscript `importance["forbid"]` in
  `make_df`) returns `Option`.
* Python truthiness is modelled explicitly where the code relies on it:
  `if tag:` on an `Optional[int]` (`pyTruthyOptNat`), `if current_section:`
  on an `Optional[str]` (`pyTruthyOptStr`), and emptiness tests on
  strings/lists.
-/

namespace HDMedi

/-- List Char stands for a Python `str`. -/
abbrev Str := List Char

/-- ASCII approximation of Python `str.strip()` / regex `\s` whitespace. -/
def isPySpace (c : Char) : Bool :=
  c = ' ' || c = '\t' || c = '\n' || c = '\r' || c = '\x0b' || c = '\x0c'

/-- Python `s.strip()`: remove leading and trailing whitespace. -/
def pyStrip (l : Str) : Str :=
  ((l.dropWhile isPySpace).reverse.dropWhile isPySpace).reverse

/-- Substring test: `pat` occurs contiguously in `s` (Python `pat in s`). -/
def subL : Str → Str → Bool
  | pat, [] => pat.isEmpty
  | pat, c :: rest => pat.isPrefixOf (c :: rest) || subL pat rest

/-- Case folding used by `re.IGNORECASE` (ASCII letters; Korean unaffected). -/
def lowerL (l : Str) : Str := l.map Char.toLower

/-- Model of `re.search(pat, s, re.IGNORECASE)` for literal patterns:
a case-insensitive substring search. -/
def re_search_ci (pat s : Str) : Bool := subL (lowerL pat) (lowerL s)

/-- Python truthiness of an `Optional[int]`: `None` and `0` are falsy. -/
def pyTruthyOptNat : Option Nat → Bool
  | some n => n != 0
  | none => false

/-- Python truthiness of an `Optional[str]`: `None` and `""` are falsy. -/
def pyTruthyOptStr : Option Str → Bool
  | some s => !s.isEmpty
  | none => false

/-! ## Segmenter (`split_sections`) -/

/-- Matcher for `section_pattern = re.compile(r'^(\d+\.\s[^:\n]+)')`:
one or more digits, a period, one whitespace character, then a nonempty run
of characters other than `:` (lines contain no `\n`).  Returns the matched
group, which the Python code stores as the heading. -/
def section_match (line : Str) : Option Str :=
  let ds := line.takeWhile Char.isDigit
  if ds.isEmpty then none else
  match line.drop ds.length with
  | '.' :: c :: rest =>
    if isPySpace c then
      let body := rest.takeWhile (fun x => x ≠ ':')
      if body.isEmpty then none else some (ds ++ '.' :: c :: body)
    else none
  | _ => none

/-- Circled-digit enumeration symbols `①`-`⑳`. -/
def isCircled (c : Char) : Bool := '①' ≤ c && c ≤ '⑳'

/-- Korean syllable range `가`-`힣`. -/
def isHangul (c : Char) : Bool := '가' ≤ c && c ≤ '힣'

/-- Matcher for
`subsection_pattern = re.compile(r'^(\d+\)|[①-⑳])\s.*|^[가-힣]+\.\s.*')`.
Because `.*` extends to the end of the line, a successful match spans the
whole line, so only a Bool is needed; the Python code appends the matched
group, i.e. the line itself. -/
def subsection_match (line : Str) : Bool :=
  (let ds := line.takeWhile Char.isDigit
   !ds.isEmpty &&
     (match line.drop ds.length with
      | ')' :: c :: _ => isPySpace c
      | [')'] => false
      | _ => false))
  || (match line with
      | c :: c2 :: _ => isCircled c && isPySpace c2
      | _ => false)
  || (let hs := line.takeWhile isHangul
      !hs.isEmpty &&
        (match line.drop hs.length with
         | '.' :: c :: _ => isPySpace c
         | _ => false))

/-- Value of the structured dictionary: a plain content string or an ordered
list of subsection fragments. -/
inductive PContent where
  | plain (s : Str)
  | subs (l : List Str)
deriving DecidableEq, Repr

/-- Mutable state of the `split_sections` loop. -/
structure SplitState where
  data : List (Str × PContent)
  cur : Option Str
  content : Str
  subs : List Str
deriving DecidableEq, Repr

/-- Python dict assignment `d[k] = v`: overwrite in place if the key exists,
otherwise append at the end. -/
def dictInsert (d : List (Str × PContent)) (k : Str) (v : PContent) :
    List (Str × PContent) :=
  if d.any (fun p => p.1 = k) then
    d.map (fun p => if p.1 = k then (k, v) else p)
  else d ++ [(k, v)]

/-- Save the previous section (`if current_section: ...`): list form if any
subsection fragments were accumulated, else the stripped content buffer. -/
def flushSection (st : SplitState) : List (Str × PContent) :=
  match st.cur with
  | some sec =>
    if sec.isEmpty then st.data
    else if !st.subs.isEmpty then dictInsert st.data sec (.subs st.subs)
    else dictInsert st.data sec (.plain (pyStrip st.content))
  | none => st.data

/-- One iteration of the `for line in lines` loop of `split_sections`. -/
def stepLine (st : SplitState) (line : Str) : SplitState :=
  match section_match line with
  | some g => { data := flushSection st, cur := some g, content := [], subs := [] }
  | none =>
    if subsection_match line && pyTruthyOptStr st.cur then
      { st with
        subs := st.subs ++ (if st.content.isEmpty then [] else [pyStrip st.content])
                ++ [line],
        content := [] }
    else
      { st with content := st.content ++ '\n' :: pyStrip line }

/-- Python `text.split('\n')`. -/
def splitLines : Str → List Str
  | [] => [[]]
  | '\n' :: rest => [] :: splitLines rest
  | c :: rest =>
    match splitLines rest with
    | [] => [[c]]
    | l :: ls => (c :: l) :: ls

/-- Input to the segmenter: a string, or any non-string value (the
`isinstance(text, str)` guard). -/
inductive TextInput where
  | str (s : Str)
  | nonStr
deriving DecidableEq

/-- Run the segmenter loop over a list of lines and flush the last section. -/
def runLines (lines : List Str) : List (Str × PContent) :=
  flushSection (lines.foldl stepLine ⟨[], none, [], []⟩)

/-- Model of `split_sections`. -/
def split_sections (text : TextInput) : List (Str × PContent) :=
  match text with
  | .nonStr => []
  | .str t => runLines (splitLines t)

/-! ## Tagger (`tag_importance`, `tag_topic`, `make_df`) -/

/-- Model of `tag_importance`: 0 if a forbid keyword is a literal substring
of the section title, else 1 for a warning keyword, else 2. -/
def tag_importance (section_title : Str) (forbid_list warning_list : List Str) :
    Nat :=
  if forbid_list.any (fun k => subL k section_title) then 0
  else if warning_list.any (fun k => subL k section_title) then 1
  else 2

/-- Model of `tag_topic`: the assigned category if any keyword matches
(case-insensitive regex search), else `None`. -/
def tag_topic (content : Str) (topic_keywords : List Str) (assign_category : Nat) :
    Option Nat :=
  if topic_keywords.any (fun w => re_search_ci w content) then some assign_category
  else none

/-- Row of the produced dataframe. -/
structure Row where
  Section : Str
  Content : Str
  importance : Nat
  Topics : List Nat
deriving DecidableEq, Repr

/-- The reserved importance keys of the keyword configuration. -/
def importance_keys : List Str := ["forbid".toList, "warning".toList]

/-- Python `{key: keywords[key] for key in importance_keys if key in keywords}`. -/
def importanceDict (keywords : List (Str × List Str)) : List (Str × List Str) :=
  importance_keys.filterMap (fun k => (keywords.lookup k).map (fun v => (k, v)))

/-- Python `{key: keywords[key] for key in keywords if key not in importance_keys}`. -/
def topicsDict (keywords : List (Str × List Str)) : List (Str × List Str) :=
  keywords.filter (fun p => !importance_keys.contains p.1)

/-- Enumerate a dictionary's keys starting at `i`
(`for i, k in enumerate(d.keys())`, ids offset by `i`). -/
def enumTags : List (Str × List Str) → Nat → List (Str × Nat)
  | [], _ => []
  | (k, _) :: rest, i => (k, i) :: enumTags rest (i + 1)

/-- Model of `topic_tag_int`: topics enumerated from 0. -/
def topic_tag_int (keywords : List (Str × List Str)) : List (Str × Nat) :=
  enumTags (topicsDict keywords) 0

/-- Python `re.sub(r'^\d+[.)]\s*', '', s)`: strip one leading numbering
token. -/
def stripNumbering (s : Str) : Str :=
  let ds := s.takeWhile Char.isDigit
  if ds.isEmpty then s else
  match s.drop ds.length with
  | c :: rest => if c = '.' || c = ')' then rest.dropWhile isPySpace else s
  | [] => s

/-- Heading-level topic loop of `make_df`.  Each topic is paired with its
enumeration index `i` (which is exactly `topic_tag_int[topic]`, since dict
keys are unique); the returned tag is appended only when `if tag:` holds,
i.e. when it is a nonzero `Some`. -/
def headTags : List (Str × List Str) → Nat → Str → List Nat
  | [], _, _ => []
  | (_, kws) :: rest, i, t =>
    (if pyTruthyOptNat (tag_topic t kws i) then [i] else []) ++ headTags rest (i + 1) t

/-- Fragment-level topic loop of `make_df`: topics whose id is already in the
heading-level list are skipped (`if topic_tag_int[topic] not in topic_tags`). -/
def subTags : List (Str × List Str) → Nat → List Nat → Str → List Nat
  | [], _, _, _ => []
  | (_, kws) :: rest, i, already, s =>
    (if !already.contains i && pyTruthyOptNat (tag_topic s kws i) then [i] else [])
      ++ subTags rest (i + 1) already s

/-- Rows emitted for one (section, content) pair of the dictionary. -/
def sectionRows (topics : List (Str × List Str)) (sec : Str) (imp : Nat)
    (tt : List Nat) : PContent → List Row
  | .subs l => l.map (fun sub =>
      let sub' := stripNumbering sub
      { Section := sec, Content := sub', importance := imp,
        Topics := tt ++ subTags topics 0 tt sub' })
  | .plain c =>
      let c' := stripNumbering c
      [{ Section := sec, Content := c', importance := imp,
         Topics := tt ++ subTags topics 0 tt c' }]

/-- Model of `make_df`.  The subscripts `importance["forbid"]` and
`importance["warning"]` raise `KeyError` when the key is absent; this is the
only fallible operation, hence the `Option` result.  Headings are already
strings in this model, so the `isinstance(section_title, str)` coercion is
the identity. -/
def make_df (medicine_dictionary : List (Str × PContent))
    (keywords : List (Str × List Str)) :
    Option (List Row × List (Str × Nat)) :=
  let importance := importanceDict keywords
  let topics := topicsDict keywords
  let ttint := topic_tag_int keywords
  let folded : Option (List Row) :=
    medicine_dictionary.foldlM (fun (rows : List Row) (p : Str × PContent) => do
      let t := stripNumbering p.1
      let forbid ← importance.lookup "forbid".toList
      let warning ← importance.lookup "warning".toList
      let imp := tag_importance t forbid warning
      let tt := headTags topics 0 t
      pure (rows ++ sectionRows topics t imp tt p.2)) []
  folded.map (fun rows => (rows, ttint))

/-! ## Personalization extension -/

/-- Static disease-to-synonym table `disease_keywords`. -/
def disease_keywords : List (Str × List Str) :=
  [("고혈압".toList, ["고혈압".toList, "혈압".toList]),
   ("저혈압".toList, ["저혈압".toList, "혈압".toList]),
   ("당뇨".toList, ["당뇨".toList, "당뇨병".toList, "혈당".toList, "인슐린".toList]),
   ("암".toList, ["종양".toList, "암".toList, "방사선".toList, "화학 요법".toList]),
   ("고지혈증".toList, ["고지혈증".toList, "콜레스테롤".toList, "지방".toList, "혈중 지질".toList]),
   ("갑상선".toList, ["갑상선".toList, "기능 항진증".toList, "기능 저하증".toList]),
   ("비만".toList, ["비만".toList, "체중".toList, "과체중".toList, "식이".toList]),
   ("치매".toList, ["치매".toList, "알츠하이머".toList, "뇌경색".toList])]

/-- Model of `find_value_in_dict`: first entry whose synonym list contains
the value (`False`, i.e. no entry, is `none`). -/
def find_value_in_dict (search_value : Str) (search_dict : List (Str × List Str)) :
    Option (Str × List Str) :=
  search_dict.find? (fun (p : Str × List Str) => p.2.contains search_value)

/-- Python dict assignment for keyword dictionaries. -/
def dictInsertKW (d : List (Str × List Str)) (k : Str) (v : List Str) :
    List (Str × List Str) :=
  if d.any (fun (p : Str × List Str) => p.1 = k) then
    d.map (fun p => if p.1 = k then (k, v) else p)
  else d ++ [(k, v)]

/-- Model of `process_user_input`: medications become singleton keyword
lists; diseases are resolved against the synonym table with a singleton
fallback. -/
def process_user_input (previous_meds interest_disease : List Str) :
    List (Str × List Str) × List (Str × List Str) :=
  (previous_meds.foldl (fun d m => dictInsertKW d m [m]) [],
   interest_disease.foldl (fun d x =>
     match find_value_in_dict x disease_keywords with
     | some (k, v) => dictInsertKW d k v
     | none => dictInsertKW d x [x]) [])

/-- Medication id registry: enumeration offset by 5 (`i + 5`). -/
def meds_tag_int (meds_dict : List (Str × List Str)) : List (Str × Nat) :=
  enumTags meds_dict 5

/-- Disease id registry: enumeration offset by `5 + meds_len`. -/
def disease_tag_int (meds_len : Nat) (disease_dict : List (Str × List Str)) :
    List (Str × Nat) :=
  enumTags disease_dict (5 + meds_len)

/-- Per-row tagging loop of `additional_tagging`: for each dictionary entry
(paired with its id `off`, i.e. its enumeration index plus the starting
offset) the section result and then the content result are appended when
truthy. -/
def rowTags : List (Str × List Str) → Nat → Str → Str → List Nat
  | [], _, _, _ => []
  | (_, kw) :: rest, off, sec, con =>
    (if pyTruthyOptNat (tag_topic sec kw off) then [off] else []) ++
    (if pyTruthyOptNat (tag_topic con kw off) then [off] else []) ++
    rowTags rest (off + 1) sec con

/-- Row extended by the optional personalization columns (a column is `none`
when the corresponding keyword dictionary was empty and the column was never
added). -/
structure AugRow where
  Section : Str
  Content : Str
  importance : Nat
  Topics : List Nat
  pastMedicine : Option (List Nat)
  diseaseInterest : Option (List Nat)
deriving DecidableEq, Repr

/-- Model of `additional_tagging`. -/
def additional_tagging (in_df : List Row) (meds_dict disease_dict : List (Str × List Str)) :
    List AugRow × List (Str × List (Str × Nat)) :=
  let mti := if meds_dict.isEmpty then [] else meds_tag_int meds_dict
  let dti := if disease_dict.isEmpty then []
             else disease_tag_int meds_dict.length disease_dict
  let aug := in_df.map (fun r =>
    { Section := r.Section, Content := r.Content, importance := r.importance,
      Topics := r.Topics,
      pastMedicine :=
        if meds_dict.isEmpty then none
        else some (rowTags meds_dict 5 r.Section r.Content),
      diseaseInterest :=
        if disease_dict.isEmpty then none
        else some (rowTags disease_dict (5 + meds_dict.length) r.Section r.Content) })
  (aug, [("medicine".toList, mti), ("disease".toList, dti)])

/-! ## Reconstruction (round-trip) notions for the segmenter -/

/-- Characters that survive whitespace normalization. -/
def nonWS (l : Str) : Str := l.filter (fun c => !isPySpace c)

/-- All characters of a content value, in order. -/
def contentChars : PContent → Str
  | .plain s => s
  | .subs l => l.flatten

/-- Concatenation, in original order, of all headings and all content values
of a segmented document. -/
def reconstruct (d : List (Str × PContent)) : Str :=
  (d.map (fun p => p.1 ++ contentChars p.2)).flatten

/-- Non-whitespace content of a list of lines, in order. -/
def linesNW (L : List Str) : Str := (L.map nonWS).flatten

/-- Whether a line opens a new heading. -/
def isHeadingLine (l : Str) : Bool := (section_match l).isSome

/-- Heading match that consumes the entire line (no colon truncation). -/
def headingFull (l : Str) : Bool := section_match l == some l

/-- Per-heading body check: if the body contains subsection-marker lines,
everything after the last marker must be whitespace-only (the segmenter
drops such trailing prose when it flushes a section in list form). -/
def blockOK (body : List Str) : Bool :=
  if body.any subsection_match then
    (body.reverse.takeWhile (fun l => !subsection_match l)).all
      (fun l => (nonWS l).isEmpty)
  else true

/-- Accumulating worker for `toBlocks`: `acc` is the body of the currently
open block `h`. -/
def toBlocksAux : List Str → Str × List Str → List (Str × List Str)
  | [], hb => [hb]
  | l :: rest, hb =>
    if isHeadingLine l then hb :: toBlocksAux rest (l, [])
    else toBlocksAux rest (hb.1, hb.2 ++ [l])

/-- Partition a line list whose head is a heading into (heading, body)
blocks, splitting before each subsequent heading line. -/
def toBlocks : List Str → List (Str × List Str)
  | [] => []
  | h :: t => toBlocksAux t (h, [])

/-- Inputs on which the segmenter is lossless: the first line is a heading,
every heading match spans its entire line, no heading repeats, and no block
drops trailing prose after its last subsection marker. -/
def wellFormed (t : Str) : Bool :=
  match splitLines t with
  | [] => false
  | l0 :: rest =>
    isHeadingLine l0 &&
    (l0 :: rest).all (fun l => !isHeadingLine l || headingFull l) &&
    decide ((l0 :: rest).filter isHeadingLine).Nodup &&
    (toBlocks (l0 :: rest)).all (fun b => blockOK b.2)

/-- Single-block accumulator step: the two non-heading branches of the
segmenter loop, acting on the (subsections, content) pair. -/
def bStep (p : List Str × Str) (line : Str) : List Str × Str :=
  if subsection_match line then
    (p.1 ++ (if p.2.isEmpty then [] else [pyStrip p.2]) ++ [line], [])
  else (p.1, p.2 ++ '\n' :: pyStrip line)

/-- Final value stored for a block. -/
def finishBody (p : List Str × Str) : PContent :=
  if p.1.isEmpty then .plain (pyStrip p.2) else .subs p.1

/-- Dictionary entry produced for one block. -/
def blockVal (b : Str × List Str) : Str × PContent :=
  (b.1, finishBody (b.2.foldl bStep ([], [])))

/-! ## Helper lemmas -/

theorem enumTags_map_fst (l : List (Str × List Str)) (i : Nat) :
    (enumTags l i).map Prod.fst = l.map Prod.fst := by
  induction l generalizing i with
  | nil => rfl
  | cons x rest ih => cases x; simp [enumTags, ih]

theorem enumTags_map_snd (l : List (Str × List Str)) (i : Nat) :
    (enumTags l i).map Prod.snd = List.range' i l.length := by
  induction l generalizing i with
  | nil => rfl
  | cons x rest ih => cases x; simp [enumTags, ih, List.range'_succ]

theorem section_match_ne_nil {line g : Str} (h : section_match line = some g) :
    g ≠ [] := by
  simp only [section_match] at h
  split at h
  · cases h
  · split at h
    · split at h
      · split at h
        · cases h
        · injection h with h
          subst h
          simp
      · cases h
    · cases h

theorem rowTags_mem_ge {dicts : List (Str × List Str)} {off : Nat}
    {sec con : Str} {x : Nat} (h : x ∈ rowTags dicts off sec con) :
    off ≤ x := by
  induction dicts generalizing off with
  | nil => simp [rowTags] at h
  | cons d rest ih =>
    obtain ⟨name, kw⟩ := d
    simp only [rowTags, List.mem_append] at h
    rcases h with (h | h) | h
    · split at h <;> simp_all
    · split at h <;> simp_all
    · have := ih h
      omega

theorem rowTags_count_two {dicts : List (Str × List Str)} {off i : Nat}
    {name : Str} {kw : List Str} {sec con : Str}
    (hoff : 0 < off) (hget : dicts[i]? = some (name, kw))
    (hs : kw.any (fun w => re_search_ci w sec) = true)
    (hc : kw.any (fun w => re_search_ci w con) = true) :
    (rowTags dicts off sec con).count (off + i) = 2 := by
  induction dicts generalizing off i with
  | nil => simp at hget
  | cons d rest ih =>
    obtain ⟨n0, kw0⟩ := d
    cases i with
    | zero =>
      simp only [List.getElem?_cons_zero, Option.some.injEq, Prod.mk.injEq] at hget
      obtain ⟨-, hk⟩ := hget
      subst hk
      have ht : tag_topic sec kw0 off = some off := by simp [tag_topic, hs]
      have ht2 : tag_topic con kw0 off = some off := by simp [tag_topic, hc]
      have htr : pyTruthyOptNat (some off) = true := by
        have hoff' : off ≠ 0 := by omega
        simp [pyTruthyOptNat, hoff']
      simp only [rowTags, ht, ht2, htr, if_true, Nat.add_zero, List.count_append]
      have hzero : (rowTags rest (off + 1) sec con).count off = 0 := by
        rw [List.count_eq_zero]
        intro hmem
        have := rowTags_mem_ge hmem
        omega
      simp [List.count_cons, hzero]
    | succ i' =>
      simp only [List.getElem?_cons_succ] at hget
      have hne : (off + (i' + 1) == off) = false := by
        simp only [beq_eq_false_iff_ne, ne_eq]
        omega
      have harith : off + (i' + 1) = (off + 1) + i' := by omega
      simp only [rowTags, List.count_append]
      have h1 : ∀ b : Bool, (List.count (off + (i' + 1))
          (if b then [off] else [])) = 0 := by
        intro b
        cases b <;> simp [List.count_cons, hne]
      rw [h1, h1, harith]
      simpa using ih (by omega) hget

/-! ## Claim theorems -/

/-- C8: a non-string input passed to the segmenter returns an empty mapping
and does not raise (totality of `split_sections` plus the `isinstance`
guard). -/
theorem c8_nonstring_input : split_sections .nonStr = [] := rfl

/-- C1 (code bug witness): for the heading "1. 소아 사용" with topic
configuration `{"child": ["소아"]}`, the keyword "소아" does match the
stripped heading (`tag_topic` returns `some 0`), yet the emitted row's
Topics list is empty, because the `if tag:` truthiness test drops the id 0
assigned to the first topic.  The registry still maps "child" to 0. -/
theorem c1_zero_topic_id_dropped :
    make_df [("1. 소아 사용".toList, .plain "내용".toList)]
        [("forbid".toList, []), ("warning".toList, []),
         ("child".toList, ["소아".toList])]
      = some ([{ Section := "소아 사용".toList, Content := "내용".toList,
                 importance := 2, Topics := [] }],
              [("child".toList, 0)]) ∧
    tag_topic "소아 사용".toList ["소아".toList] 0 = some 0 ∧
    pyTruthyOptNat (tag_topic "소아 사용".toList ["소아".toList] 0) = false := by
  refine ⟨?_, by decide, by decide⟩
  decide

/-- C2 (code bug witness): tagging a nonempty segmented document with a
configuration missing "forbid", "warning", or both raises `KeyError`
(modelled as `none`), because `make_df` subscripts `importance["forbid"]`
and `importance["warning"]` unconditionally even though the `importance`
dictionary only contains the keys present in the configuration. -/
theorem c2_missing_importance_key_raises :
    make_df [("1. A".toList, .plain "x".toList)]
        [("child".toList, ["소아".toList])] = none ∧
    make_df [("1. A".toList, .plain "x".toList)]
        [("forbid".toList, [])] = none ∧
    make_df [("1. A".toList, .plain "x".toList)]
        [("warning".toList, [])] = none := by
  refine ⟨?_, ?_, ?_⟩ <;> decide

/-- C3 counterexample: on the text `"1. 경고\n복용하지 마십시오"` with
`forbid = ["복용하지 마십시오"]` and `warning = []` the single emitted row
has Section Importance 2, not 0 as the claim states. -/
theorem c3_counterexample :
    ((make_df
        (split_sections (.str "1. 경고\n복용하지 마십시오".toList))
        [("forbid".toList, ["복용하지 마십시오".toList]),
         ("warning".toList, [])]).map
      (fun p => p.1.map Row.importance)) = some [2] ∧ (2 : Nat) ≠ 0 := by
  refine ⟨?_, by decide⟩
  decide

/-- C3 (amended): segmenting `"1. 경고\n복용하지 마십시오"` and tagging it
with `forbid = ["복용하지 마십시오"]`, `warning = []` produces exactly one
row with Section "경고", Content "복용하지 마십시오" and Section
Importance 2: importance is computed from the stripped heading "경고",
of which the forbid keyword is not a literal substring. -/
theorem c3_amended :
    make_df
        (split_sections (.str "1. 경고\n복용하지 마십시오".toList))
        [("forbid".toList, ["복용하지 마십시오".toList]),
         ("warning".toList, [])]
      = some ([{ Section := "경고".toList,
                 Content := "복용하지 마십시오".toList,
                 importance := 2, Topics := [] }], []) ∧
    subL "복용하지 마십시오".toList "경고".toList = false := by
  refine ⟨?_, by decide⟩
  decide

/-- C5 counterexample: with six static topic keys the static topic ids are
0..5, and with one prior medication the medication id is 5, so a dynamic id
collides with a static id. -/
theorem c5_counterexample :
    5 ∈ (topic_tag_int
          [("t0".toList, []), ("t1".toList, []), ("t2".toList, []),
           ("t3".toList, []), ("t4".toList, []), ("t5".toList, [])]).map
          Prod.snd ∧
    5 ∈ (meds_tag_int [("m".toList, ["m".toList])]).map Prod.snd := by
  refine ⟨?_, ?_⟩ <;> decide

/-- C5 (amended): medication ids and disease ids are pairwise distinct from
each other, and they are distinct from every static topic id provided the
configuration has at most five topic keys (static ids then lie in 0..4,
below the dynamic ids, which start at 5). -/
theorem c5_amended (cfg meds ds : List (Str × List Str))
    (h : (topicsDict cfg).length ≤ 5) :
    ((meds_tag_int meds).map Prod.snd).Nodup ∧
    ((disease_tag_int meds.length ds).map Prod.snd).Nodup ∧
    (∀ a ∈ (meds_tag_int meds).map Prod.snd,
        a ∉ (disease_tag_int meds.length ds).map Prod.snd) ∧
    (∀ a ∈ (topic_tag_int cfg).map Prod.snd,
        a ∉ (meds_tag_int meds).map Prod.snd ∧
        a ∉ (disease_tag_int meds.length ds).map Prod.snd) := by
  rw [meds_tag_int, disease_tag_int, topic_tag_int, enumTags_map_snd,
    enumTags_map_snd, enumTags_map_snd]
  refine ⟨List.nodup_range' _ _, List.nodup_range' _ _, ?_, ?_⟩
  · intro a ha
    rw [List.mem_range'_1] at ha ⊢
    omega
  · intro a ha
    rw [List.mem_range'_1] at ha
    constructor <;> rw [List.mem_range'_1] <;> omega

/-- C5 amended witness at a concrete configuration: three static topics,
two medications and one disease. -/
theorem c5_amended_witness :
    (topicsDict [("forbid".toList, []), ("child".toList, []),
        ("pregnant".toList, []), ("elder".toList, [])]).length ≤ 5 ∧
    (((meds_tag_int [("a".toList, []), ("b".toList, [])]).map Prod.snd).Nodup ∧
     ((disease_tag_int
        ([("a".toList, ([] : List Str)), ("b".toList, [])].length)
        [("d".toList, [])]).map Prod.snd).Nodup ∧
     (∀ x ∈ (meds_tag_int [("a".toList, []), ("b".toList, [])]).map Prod.snd,
        x ∉ (disease_tag_int
          ([("a".toList, ([] : List Str)), ("b".toList, [])].length)
          [("d".toList, [])]).map Prod.snd) ∧
     (∀ x ∈ (topic_tag_int [("forbid".toList, []), ("child".toList, []),
          ("pregnant".toList, []), ("elder".toList, [])]).map Prod.snd,
        x ∉ (meds_tag_int [("a".toList, []), ("b".toList, [])]).map Prod.snd ∧
        x ∉ (disease_tag_int
          ([("a".toList, ([] : List Str)), ("b".toList, [])].length)
          [("d".toList, [])]).map Prod.snd)) :=
  ⟨by decide,
   c5_amended
     [("forbid".toList, []), ("child".toList, []), ("pregnant".toList, []),
      ("elder".toList, [])]
     [("a".toList, []), ("b".toList, [])] [("d".toList, [])] (by decide)⟩

/-- C6: whenever `make_df` returns, the topic-id registry it returns assigns
ids forming the contiguous range 0..n-1, where n is the number of
configuration keys other than "forbid" and "warning", following the
configuration's key order. -/
theorem c6_topic_registry (doc : List (Str × PContent))
    (keywords : List (Str × List Str)) (rows : List Row)
    (reg : List (Str × Nat))
    (h : make_df doc keywords = some (rows, reg)) :
    reg.map Prod.snd = List.range (topicsDict keywords).length ∧
    reg.map Prod.fst = (topicsDict keywords).map Prod.fst := by
  have hreg : reg = topic_tag_int keywords := by
    simp only [make_df, Option.map_eq_some'] at h
    obtain ⟨rs, -, heq⟩ := h
    exact (Prod.mk.injEq _ _ _ _ ▸ heq).2.symm
  subst hreg
  rw [topic_tag_int, enumTags_map_snd, enumTags_map_fst,
    List.range_eq_range']
  exact ⟨rfl, rfl⟩

/-- C6 witness: concrete configuration with two topic keys. -/
theorem c6_topic_registry_witness :
    make_df [] [("forbid".toList, []), ("child".toList, ["소아".toList]),
        ("pregnant".toList, ["임부".toList])]
      = some ([], [("child".toList, 0), ("pregnant".toList, 1)]) ∧
    ([("child".toList, 0), ("pregnant".toList, 1)].map Prod.snd
        = List.range (topicsDict [("forbid".toList, []),
            ("child".toList, ["소아".toList]),
            ("pregnant".toList, ["임부".toList])]).length ∧
     [("child".toList, 0), ("pregnant".toList, 1)].map Prod.fst
        = (topicsDict [("forbid".toList, []),
            ("child".toList, ["소아".toList]),
            ("pregnant".toList, ["임부".toList])]).map Prod.fst) :=
  ⟨by decide,
   c6_topic_registry [] _ [] [("child".toList, 0), ("pregnant".toList, 1)]
     (by decide)⟩

theorem splitLines_no_newline {a : Str} (h : '\n' ∉ a) : splitLines a = [a] := by
  induction a with
  | nil => rfl
  | cons c rest ih =>
    have hc : ¬(c = '\n') := fun hcc => h (hcc ▸ List.mem_cons_self c rest)
    have hr : '\n' ∉ rest := fun hm => h (List.mem_cons_of_mem _ hm)
    rw [splitLines.eq_def]
    split
    · simp_all
    · simp_all
    · rename_i x0 c' rest' hne heq
      injection heq with h1 h2
      subst h1
      rw [← h2, ih hr]

theorem splitLines_append_newline {a : Str} (rest : Str) (h : '\n' ∉ a) :
    splitLines (a ++ '\n' :: rest) = a :: splitLines rest := by
  induction a with
  | nil => rfl
  | cons c t ih =>
    have hc : ¬(c = '\n') := fun hcc => h (hcc ▸ List.mem_cons_self c t)
    have hr : '\n' ∉ t := fun hm => h (List.mem_cons_of_mem _ hm)
    rw [List.cons_append, splitLines.eq_def]
    split
    · simp_all
    · simp_all
    · rename_i x0 c' t' hne heq
      injection heq with h1 h2
      subst h1
      rw [← h2, ih hr]

/-- C10: once any line (including a blank one) has been consumed into the
plain-content buffer, the buffer is nonempty; consequently, an input built
from a heading line followed by a blank line and then a subsection-marker
line yields a subsection list beginning with an empty-string fragment. -/
theorem c10_blank_line_fragment :
    (∀ (st : SplitState) (line : Str), section_match line = none →
      ¬(subsection_match line = true ∧ pyTruthyOptStr st.cur = true) →
      (stepLine st line).content ≠ []) ∧
    (∀ (hl ml g : Str), section_match hl = some g → '\n' ∉ hl → '\n' ∉ ml →
      subsection_match ml = true → section_match ml = none →
      split_sections (.str (hl ++ '\n' :: '\n' :: ml))
        = [(g, .subs [[], ml])]) := by
  constructor
  · intro st line hsec hnot
    have hcond : (subsection_match line && pyTruthyOptStr st.cur) = false := by
      cases h1 : subsection_match line <;>
        cases h2 : pyTruthyOptStr st.cur <;> simp_all
    simp [stepLine, hsec, hcond]
  · intro hl ml g hsec hnl1 hnl2 hsub hsecml
    have hg : g ≠ [] := section_match_ne_nil hsec
    have hgE : g.isEmpty = false := by
      cases g
      · exact absurd rfl hg
      · rfl
    have hlines : splitLines (hl ++ '\n' :: '\n' :: ml) = [hl, [], ml] := by
      rw [splitLines_append_newline ('\n' :: ml) hnl1]
      rw [show splitLines ('\n' :: ml) = [] :: splitLines ml from rfl]
      rw [splitLines_no_newline hnl2]
    have s1 : stepLine ⟨[], none, [], []⟩ hl = ⟨[], some g, [], []⟩ := by
      simp [stepLine, hsec, flushSection]
    have s2 : stepLine ⟨[], some g, [], []⟩ [] = ⟨[], some g, ['\n'], []⟩ := by
      rw [stepLine]
      rw [show section_match [] = none from rfl]
      rw [show subsection_match [] = false from rfl]
      simp [pyStrip]
    have s3 : stepLine ⟨[], some g, ['\n'], []⟩ ml = ⟨[], some g, [], [[], ml]⟩ := by
      rw [stepLine, hsecml]
      rw [show pyTruthyOptStr (some g) = !g.isEmpty from rfl, hgE]
      rw [hsub]
      simp [pyStrip, isPySpace]
    rw [split_sections, runLines, hlines]
    simp only [List.foldl_cons, List.foldl_nil]
    rw [s1, s2, s3]
    simp [flushSection, hgE, dictInsert]

/-- C10 witness: the general buffer fact applied to a plain line consumed
from the initial state, and the concrete input "1. head\n\n1) sub". -/
theorem c10_blank_line_fragment_witness :
    (stepLine ⟨[], none, [], []⟩ "hello".toList).content ≠ [] ∧
    split_sections
        (.str ("1. head".toList ++ '\n' :: '\n' :: "1) sub".toList))
      = [("1. head".toList, .subs [[], "1) sub".toList])] :=
  ⟨c10_blank_line_fragment.1 ⟨[], none, [], []⟩ "hello".toList (by decide)
      (by decide),
   c10_blank_line_fragment.2 "1. head".toList "1) sub".toList
      "1. head".toList (by decide) (by decide) (by decide) (by decide)
      (by decide)⟩

/-- C7: with prior_medications = ["아스피린"] and diseases_of_interest =
["고혈압"], the user-input pass resolves "고혈압" to the synonym list
["고혈압", "혈압"]; the personalization registry assigns medication id 5 to
"아스피린" and disease id 6 to "고혈압"; every augmented row whose Section
or Content matches "혈압" case-insensitively carries id 6 in its Disease
Interest field; and in general disease ids start at 5 plus the number of
medication ids. -/
theorem c7_personalization :
    process_user_input ["아스피린".toList] ["고혈압".toList]
      = ([("아스피린".toList, ["아스피린".toList])],
         [("고혈압".toList, ["고혈압".toList, "혈압".toList])]) ∧
    (∀ rows : List Row,
      (additional_tagging rows
          [("아스피린".toList, ["아스피린".toList])]
          [("고혈압".toList, ["고혈압".toList, "혈압".toList])]).2
        = [("medicine".toList, [("아스피린".toList, 5)]),
           ("disease".toList, [("고혈압".toList, 6)])]) ∧
    (∀ (rows : List Row) (a : AugRow),
      a ∈ (additional_tagging rows
          [("아스피린".toList, ["아스피린".toList])]
          [("고혈압".toList, ["고혈압".toList, "혈압".toList])]).1 →
      (re_search_ci "혈압".toList a.Section = true ∨
       re_search_ci "혈압".toList a.Content = true) →
      ∃ l, a.diseaseInterest = some l ∧ 6 ∈ l) ∧
    (∀ (meds ds : List (Str × List Str)),
      (disease_tag_int meds.length ds).map Prod.snd
        = List.range' (5 + meds.length) ds.length) := by
  refine ⟨by decide, fun rows => rfl, ?_, ?_⟩
  · intro rows a ha hmatch
    simp only [additional_tagging, List.mem_map] at ha
    obtain ⟨r, -, rfl⟩ := ha
    simp only at hmatch
    refine ⟨_, rfl, ?_⟩
    rcases hmatch with h | h
    · have h' : re_search_ci ['혈', '압'] r.Section = true := h
      simp [rowTags, tag_topic, h', pyTruthyOptNat]
    · have h' : re_search_ci ['혈', '압'] r.Content = true := h
      simp [rowTags, tag_topic, h', pyTruthyOptNat]
  · intro meds ds
    rw [disease_tag_int]
    exact enumTags_map_snd ds (5 + meds.length)

/-- C7 witness: a concrete row whose Section and Content both contain
"혈압" receives disease id 6. -/
theorem c7_personalization_witness :
    ∃ l, ({ Section := "고혈압 환자".toList, Content := "혈압 강하".toList,
            importance := 2, Topics := [], pastMedicine := some [],
            diseaseInterest := some [6, 6] } : AugRow).diseaseInterest
          = some l ∧ 6 ∈ l :=
  c7_personalization.2.2.1
    [{ Section := "고혈압 환자".toList, Content := "혈압 강하".toList,
       importance := 2, Topics := [] }] _ (by decide) (Or.inl (by decide))

/-- C9: when a row's Section and Content both match a medication's
(respectively a disease's) keyword list, that medication's (disease's) id
appears exactly twice in the row's Past Medicine (Disease Interest) list:
the section result and the content result are appended independently. -/
theorem c9_duplicate_dynamic_ids :
    (∀ (rows : List Row) (meds ds : List (Str × List Str)) (i j : Nat)
        (name : Str) (kw : List Str) (r : Row),
      meds[i]? = some (name, kw) → rows[j]? = some r →
      (kw.any fun w => re_search_ci w r.Section) = true →
      (kw.any fun w => re_search_ci w r.Content) = true →
      ∃ a : AugRow, (additional_tagging rows meds ds).1[j]? = some a ∧
        ∃ pm, a.pastMedicine = some pm ∧ pm.count (5 + i) = 2) ∧
    (∀ (rows : List Row) (meds ds : List (Str × List Str)) (i j : Nat)
        (name : Str) (kw : List Str) (r : Row),
      ds[i]? = some (name, kw) → rows[j]? = some r →
      (kw.any fun w => re_search_ci w r.Section) = true →
      (kw.any fun w => re_search_ci w r.Content) = true →
      ∃ a : AugRow, (additional_tagging rows meds ds).1[j]? = some a ∧
        ∃ di, a.diseaseInterest = some di ∧
          di.count (5 + meds.length + i) = 2) := by
  constructor
  · intro rows meds ds i j name kw r hget hrow hs hc
    have hne : meds.isEmpty = false := by
      cases meds
      · simp at hget
      · rfl
    refine ⟨{ Section := r.Section, Content := r.Content,
              importance := r.importance, Topics := r.Topics,
              pastMedicine := if meds.isEmpty then none
                else some (rowTags meds 5 r.Section r.Content),
              diseaseInterest := if ds.isEmpty then none
                else some (rowTags ds (5 + meds.length) r.Section r.Content) },
            ?_, ?_⟩
    · simp only [additional_tagging, List.getElem?_map, hrow, Option.map_some']
    · exact ⟨_, by simp [hne], rowTags_count_two (by omega) hget hs hc⟩
  · intro rows meds ds i j name kw r hget hrow hs hc
    have hne : ds.isEmpty = false := by
      cases ds
      · simp at hget
      · rfl
    refine ⟨{ Section := r.Section, Content := r.Content,
              importance := r.importance, Topics := r.Topics,
              pastMedicine := if meds.isEmpty then none
                else some (rowTags meds 5 r.Section r.Content),
              diseaseInterest := if ds.isEmpty then none
                else some (rowTags ds (5 + meds.length) r.Section r.Content) },
            ?_, ?_⟩
    · simp only [additional_tagging, List.getElem?_map, hrow, Option.map_some']
    · exact ⟨_, by simp [hne], rowTags_count_two (by omega) hget hs hc⟩

/-- C9 witness: a concrete row matching "아스피린" in both fields receives
medication id 5 twice, and matching the "고혈압" synonyms in both fields
receives disease id 6 twice. -/
theorem c9_duplicate_dynamic_ids_witness :
    (∃ a : AugRow,
      (additional_tagging
          [{ Section := "아스피린 고혈압".toList,
             Content := "아스피린 혈압".toList, importance := 2,
             Topics := [] }]
          [("아스피린".toList, ["아스피린".toList])]
          [("고혈압".toList, ["고혈압".toList, "혈압".toList])]).1[0]?
        = some a ∧
      ∃ pm, a.pastMedicine = some pm ∧ pm.count (5 + 0) = 2) ∧
    (∃ a : AugRow,
      (additional_tagging
          [{ Section := "아스피린 고혈압".toList,
             Content := "아스피린 혈압".toList, importance := 2,
             Topics := [] }]
          [("아스피린".toList, ["아스피린".toList])]
          [("고혈압".toList, ["고혈압".toList, "혈압".toList])]).1[0]?
        = some a ∧
      ∃ di, a.diseaseInterest = some di ∧
        di.count (5 + [("아스피린".toList,
          ["아스피린".toList])].length + 0) = 2) :=
  ⟨c9_duplicate_dynamic_ids.1
      [{ Section := "아스피린 고혈압".toList,
         Content := "아스피린 혈압".toList, importance := 2, Topics := [] }]
      [("아스피린".toList, ["아스피린".toList])]
      [("고혈압".toList, ["고혈압".toList, "혈압".toList])] 0 0
      "아스피린".toList ["아스피린".toList]
      { Section := "아스피린 고혈압".toList,
        Content := "아스피린 혈압".toList, importance := 2, Topics := [] }
      (by decide) (by decide) (by decide) (by decide),
   c9_duplicate_dynamic_ids.2
      [{ Section := "아스피린 고혈압".toList,
         Content := "아스피린 혈압".toList, importance := 2, Topics := [] }]
      [("아스피린".toList, ["아스피린".toList])]
      [("고혈압".toList, ["고혈압".toList, "혈압".toList])] 0 0
      "고혈압".toList ["고혈압".toList, "혈압".toList]
      { Section := "아스피린 고혈압".toList,
        Content := "아스피린 혈압".toList, importance := 2, Topics := [] }
      (by decide) (by decide) (by decide) (by decide)⟩

/-! ## Round-trip lemmas -/

theorem nonWS_append (a b : Str) : nonWS (a ++ b) = nonWS a ++ nonWS b :=
  List.filter_append a b

theorem nonWS_cons' (c : Char) (l : Str) :
    nonWS (c :: l) = if isPySpace c then nonWS l else c :: nonWS l := by
  cases h : isPySpace c <;> simp [nonWS, List.filter_cons, h]

theorem nonWS_dropWhile (l : Str) :
    nonWS (l.dropWhile isPySpace) = nonWS l := by
  induction l with
  | nil => rfl
  | cons c rest ih =>
    rw [List.dropWhile_cons]
    cases hc : isPySpace c with
    | true => simp [hc, ih, nonWS_cons']
    | false => simp [hc]

theorem nonWS_reverse (l : Str) : nonWS l.reverse = (nonWS l).reverse :=
  List.filter_reverse _ l

theorem nonWS_pyStrip (l : Str) : nonWS (pyStrip l) = nonWS l := by
  rw [pyStrip, nonWS_reverse, nonWS_dropWhile, nonWS_reverse,
    List.reverse_reverse, nonWS_dropWhile]

theorem nonWS_newline_cons (l : Str) : nonWS ('\n' :: l) = nonWS l := by
  simp [nonWS, List.filter_cons, isPySpace]

theorem nonWS_flatten (L : List Str) : nonWS L.flatten = linesNW L := by
  induction L with
  | nil => rfl
  | cons a rest ih =>
    rw [List.flatten_cons, nonWS_append, ih]
    simp [linesNW]

theorem linesNW_append (a b : List Str) :
    linesNW (a ++ b) = linesNW a ++ linesNW b := by
  simp [linesNW]

theorem linesNW_flatten (L : List (List Str)) :
    linesNW L.flatten = (L.map linesNW).flatten := by
  induction L with
  | nil => rfl
  | cons a rest ih => simp [linesNW_append, ih]

theorem splitLines_ne_nil (t : Str) : splitLines t ≠ [] := by
  rw [splitLines.eq_def]
  split
  · simp
  · simp
  · split <;> simp

theorem splitLines_cons_ne {c : Char} (rest : Str) (hc : ¬(c = '\n')) :
    splitLines (c :: rest) = match splitLines rest with
      | [] => [[c]]
      | l :: ls => (c :: l) :: ls := by
  rw [splitLines.eq_def]
  split
  · simp_all
  · simp_all
  · rename_i x0 c' rest' hne heq
    injection heq with h1 h2
    subst h1
    rw [h2]

theorem linesNW_splitLines (t : Str) : linesNW (splitLines t) = nonWS t := by
  induction t with
  | nil => rfl
  | cons c rest ih =>
    by_cases hc : c = '\n'
    · subst hc
      rw [show splitLines ('\n' :: rest) = [] :: splitLines rest from rfl,
        nonWS_newline_cons, ← ih]
      simp [linesNW, nonWS]
    · cases hsp : splitLines rest with
      | nil => exact absurd hsp (splitLines_ne_nil rest)
      | cons l ls =>
        rw [splitLines_cons_ne rest hc, hsp]
        rw [hsp] at ih
        simp only [linesNW, List.map_cons, List.flatten_cons] at ih ⊢
        rw [nonWS_cons', nonWS_cons']
        cases hpc : isPySpace c <;> simp [hpc, List.cons_append, ih]

theorem nonWS_nil : nonWS ([] : Str) = [] := rfl

theorem dropWhile_head_prop {α : Type} (q : α → Bool) :
    ∀ (l : List α) {x : α} {xs : List α}, l.dropWhile q = x :: xs → q x = false := by
  intro l
  induction l with
  | nil => intro x xs h; cases h
  | cons a t ih =>
    intro x xs h
    rw [List.dropWhile_cons] at h
    by_cases ha : q a = true
    · rw [if_pos ha] at h
      exact ih h
    · have ha' : q a = false := by simpa using ha
      rw [if_neg (by simp [ha'])] at h
      injection h with h1 h2
      exact h1 ▸ ha'

theorem bStep_fold_nw (body : List Str) :
    ∀ p : List Str × Str,
      linesNW (body.foldl bStep p).1 ++ nonWS (body.foldl bStep p).2
        = linesNW p.1 ++ nonWS p.2 ++ linesNW body := by
  induction body with
  | nil => intro p; simp [linesNW]
  | cons l rest ih =>
    intro p
    rw [List.foldl_cons]
    cases hm : subsection_match l with
    | true =>
      rw [show bStep p l
          = (p.1 ++ (if p.2.isEmpty then [] else [pyStrip p.2]) ++ [l], []) from by
        simp [bStep, hm]]
      rw [ih]
      have hopt : linesNW (if p.2.isEmpty then [] else [pyStrip p.2]) = nonWS p.2 := by
        cases hp2 : p.2 with
        | nil => simp [linesNW, nonWS_nil]
        | cons a b => simp [linesNW, nonWS_pyStrip]
      rw [linesNW_append, linesNW_append, hopt]
      simp [linesNW, nonWS_nil, List.append_assoc]
    | false =>
      rw [show bStep p l = (p.1, p.2 ++ '\n' :: pyStrip l) from by simp [bStep, hm]]
      rw [ih]
      simp only [nonWS_append, nonWS_newline_cons, nonWS_pyStrip]
      simp [linesNW, List.append_assoc]

theorem bStep_fold_no_marker_fst (body : List Str) :
    ∀ p : List Str × Str, (∀ l ∈ body, subsection_match l = false) →
      (body.foldl bStep p).1 = p.1 := by
  induction body with
  | nil => intro p _; rfl
  | cons l rest ih =>
    intro p hno
    rw [List.foldl_cons,
      show bStep p l = (p.1, p.2 ++ '\n' :: pyStrip l) from by
        simp [bStep, hno l (List.mem_cons_self l rest)]]
    exact ih _ (fun x hx => hno x (List.mem_cons_of_mem _ hx))

theorem bStep_fold_no_marker_ws (body : List Str) :
    ∀ p : List Str × Str, (∀ l ∈ body, subsection_match l = false) →
      (∀ l ∈ body, nonWS l = []) → nonWS p.2 = [] →
      nonWS ((body.foldl bStep p).2) = [] := by
  induction body with
  | nil => intro p _ _ hc; exact hc
  | cons l rest ih =>
    intro p hno hws hc
    rw [List.foldl_cons,
      show bStep p l = (p.1, p.2 ++ '\n' :: pyStrip l) from by
        simp [bStep, hno l (List.mem_cons_self l rest)]]
    refine ih _ (fun x hx => hno x (List.mem_cons_of_mem _ hx))
      (fun x hx => hws x (List.mem_cons_of_mem _ hx)) ?_
    simp only [nonWS_append, nonWS_newline_cons, nonWS_pyStrip, hc,
      hws l (List.mem_cons_self l rest), List.append_nil]

theorem bStep_fold_fst_prefix (body : List Str) :
    ∀ p : List Str × Str, ∃ e, (body.foldl bStep p).1 = p.1 ++ e := by
  induction body with
  | nil => intro p; exact ⟨[], by simp⟩
  | cons l rest ih =>
    intro p
    rw [List.foldl_cons]
    cases hm : subsection_match l with
    | true =>
      rw [show bStep p l
          = (p.1 ++ (if p.2.isEmpty then [] else [pyStrip p.2]) ++ [l], []) from by
        simp [bStep, hm]]
      obtain ⟨e, he⟩ := ih ((p.1 ++ (if p.2.isEmpty then [] else [pyStrip p.2]) ++ [l], []))
      exact ⟨(if p.2.isEmpty then [] else [pyStrip p.2]) ++ [l] ++ e, by
        simp only at he
        rw [he]
        simp [List.append_assoc]⟩
    | false =>
      rw [show bStep p l = (p.1, p.2 ++ '\n' :: pyStrip l) from by simp [bStep, hm]]
      exact ih _

theorem bStep_fold_any_marker_ne (body : List Str) :
    ∀ p : List Str × Str, body.any subsection_match = true →
      (body.foldl bStep p).1 ≠ [] := by
  induction body with
  | nil => intro p h; simp at h
  | cons l rest ih =>
    intro p hany
    rw [List.foldl_cons]
    cases hm : subsection_match l with
    | true =>
      rw [show bStep p l
          = (p.1 ++ (if p.2.isEmpty then [] else [pyStrip p.2]) ++ [l], []) from by
        simp [bStep, hm]]
      obtain ⟨e, he⟩ := bStep_fold_fst_prefix rest
        ((p.1 ++ (if p.2.isEmpty then [] else [pyStrip p.2]) ++ [l], []))
      simp only at he
      rw [he]
      simp
    | false =>
      have hrest : rest.any subsection_match = true := by
        rcases List.any_eq_true.mp hany with ⟨x, hx, hpx⟩
        rcases List.mem_cons.mp hx with rfl | hx'
        · rw [hm] at hpx; cases hpx
        · exact List.any_eq_true.mpr ⟨x, hx', hpx⟩
      rw [show bStep p l = (p.1, p.2 ++ '\n' :: pyStrip l) from by simp [bStep, hm]]
      exact ih _ hrest

theorem block_nw (body : List Str) (hOK : blockOK body = true) :
    nonWS (contentChars (finishBody (body.foldl bStep ([], [])))) = linesNW body := by
  cases hany : body.any subsection_match with
  | false =>
    have hnom : ∀ l ∈ body, subsection_match l = false := by
      intro l hl
      rcases hsm : subsection_match l with _ | _
      · rfl
      · exact absurd (List.any_eq_true.mpr ⟨l, hl, hsm⟩) (by rw [hany]; simp)
    rcases hres : body.foldl bStep ([], []) with ⟨s', c'⟩
    have hfst : s' = [] := by
      have := bStep_fold_no_marker_fst body ([], []) hnom
      rw [hres] at this
      exact this
    subst hfst
    have hpair := bStep_fold_nw body ([], [])
    rw [hres] at hpair
    simp only [linesNW, List.map_nil, List.flatten_nil, List.nil_append,
      nonWS_nil] at hpair
    simp only [finishBody, contentChars, List.isEmpty_nil, if_true]
    rw [nonWS_pyStrip]
    exact hpair
  | true =>
    have hsplit := List.takeWhile_append_dropWhile
      (fun l => !subsection_match l) body.reverse
    cases hdrop : body.reverse.dropWhile (fun l => !subsection_match l) with
    | nil =>
      exfalso
      rw [hdrop, List.append_nil] at hsplit
      obtain ⟨x, hx, hpx⟩ := List.any_eq_true.mp hany
      have hxr : x ∈ body.reverse.takeWhile (fun l => !subsection_match l) := by
        rw [hsplit]
        exact List.mem_reverse.mpr hx
      have := List.mem_takeWhile_imp hxr
      rw [hpx] at this
      cases this
    | cons m pre =>
      have hm : subsection_match m = true := by
        have := dropWhile_head_prop (fun l => !subsection_match l)
          body.reverse hdrop
        simpa using this
      have h1 : body.reverse.takeWhile (fun l => !subsection_match l) ++ m :: pre
          = body.reverse := by rw [← hdrop]; exact hsplit
      have hbody : body = pre.reverse ++ m ::
          (body.reverse.takeWhile (fun l => !subsection_match l)).reverse := by
        calc body = body.reverse.reverse := (List.reverse_reverse body).symm
          _ = (body.reverse.takeWhile (fun l => !subsection_match l)
                ++ m :: pre).reverse := by rw [h1]
          _ = (m :: pre).reverse ++
                (body.reverse.takeWhile (fun l => !subsection_match l)).reverse := by
              rw [List.reverse_append]
          _ = pre.reverse ++ m ::
                (body.reverse.takeWhile (fun l => !subsection_match l)).reverse := by
              rw [List.reverse_cons]
              simp [List.append_assoc]
      have hok' : (body.reverse.takeWhile (fun l => !subsection_match l)).all
          (fun l => (nonWS l).isEmpty) = true := by
        have := hOK
        rw [blockOK] at this
        rw [if_pos hany] at this
        exact this
      have hpost_nom : ∀ l ∈ (body.reverse.takeWhile
          (fun l => !subsection_match l)).reverse, subsection_match l = false := by
        intro l hl
        have := List.mem_takeWhile_imp (List.mem_reverse.mp hl)
        simpa using this
      have hpost_ws : ∀ l ∈ (body.reverse.takeWhile
          (fun l => !subsection_match l)).reverse, nonWS l = [] := by
        intro l hl
        have := List.all_eq_true.mp hok' l (List.mem_reverse.mp hl)
        exact List.isEmpty_iff.mp this
      rcases hres : body.foldl bStep ([], []) with ⟨s', c'⟩
      have hs' : s' ≠ [] := by
        have := bStep_fold_any_marker_ne body ([], []) hany
        rw [hres] at this
        exact this
      have hfoldsplit : body.foldl bStep ([], [])
          = (body.reverse.takeWhile (fun l => !subsection_match l)).reverse.foldl
              bStep (bStep (pre.reverse.foldl bStep ([], [])) m) := by
        conv_lhs => rw [hbody]
        rw [List.foldl_append, List.foldl_cons]
      have hc' : nonWS c' = [] := by
        have hstep2 : (bStep (pre.reverse.foldl bStep ([], [])) m).2 = [] := by
          simp [bStep, hm]
        have hws := bStep_fold_no_marker_ws
          (body.reverse.takeWhile (fun l => !subsection_match l)).reverse
          (bStep (pre.reverse.foldl bStep ([], [])) m)
          hpost_nom hpost_ws (by rw [hstep2]; rfl)
        rw [← hfoldsplit, hres] at hws
        exact hws
      have hpair := bStep_fold_nw body ([], [])
      rw [hres] at hpair
      simp only [linesNW, List.map_nil, List.flatten_nil, List.nil_append,
        nonWS_nil] at hpair
      rw [hc', List.append_nil] at hpair
      have hsE : s'.isEmpty = false := by
        cases s'
        · exact absurd rfl hs'
        · rfl
      simp only [finishBody, hsE, Bool.false_eq_true, if_false]
      rw [show contentChars (PContent.subs s') = s'.flatten from rfl,
        nonWS_flatten]
      exact hpair

theorem toBlocksAux_eq (t : List Str) :
    ∀ (h : Str) (acc : List Str),
      toBlocksAux t (h, acc)
        = (h, acc ++ t.takeWhile (fun l => !isHeadingLine l)) ::
            toBlocks (t.dropWhile (fun l => !isHeadingLine l)) := by
  induction t with
  | nil => intro h acc; simp [toBlocksAux, toBlocks]
  | cons l rest ih =>
    intro h acc
    rw [toBlocksAux]
    cases hl : isHeadingLine l with
    | true =>
      simp [List.takeWhile_cons, List.dropWhile_cons, hl, toBlocks]
    | false =>
      simp [ih, List.takeWhile_cons, List.dropWhile_cons, hl, List.append_assoc]

theorem toBlocks_cons (h : Str) (t : List Str) :
    toBlocks (h :: t)
      = (h, t.takeWhile (fun l => !isHeadingLine l)) ::
          toBlocks (t.dropWhile (fun l => !isHeadingLine l)) := by
  rw [toBlocks, toBlocksAux_eq]
  simp

theorem toBlocks_flatten_aux (n : Nat) :
    ∀ lines : List Str, lines.length ≤ n →
      ((toBlocks lines).map (fun b => b.1 :: b.2)).flatten = lines := by
  induction n with
  | zero =>
    intro lines hlen
    have : lines = [] := List.eq_nil_of_length_eq_zero (Nat.le_zero.mp hlen)
    subst this; rfl
  | succ n ih =>
    intro lines hlen
    cases lines with
    | nil => rfl
    | cons h t =>
      rw [toBlocks_cons]
      simp only [List.map_cons, List.flatten_cons]
      rw [ih (t.dropWhile (fun l => !isHeadingLine l)) ?_]
      · rw [List.cons_append, List.takeWhile_append_dropWhile]
      · have := (List.dropWhile_sublist (l := t)
          (fun l => !isHeadingLine l)).length_le
        simp only [List.length_cons] at hlen
        omega

theorem toBlocks_flatten (lines : List Str) :
    ((toBlocks lines).map (fun b => b.1 :: b.2)).flatten = lines :=
  toBlocks_flatten_aux lines.length lines le_rfl

theorem isHeadingLine_eq_false {l : Str} (h : isHeadingLine l = false) :
    section_match l = none := by
  cases hs : section_match l with
  | none => rfl
  | some g => rw [isHeadingLine, hs] at h; cases h

theorem foldl_stepLine_body (body : List Str) :
    ∀ (d : List (Str × PContent)) (h : Str) (c : Str) (s : List Str),
      h ≠ [] → (∀ l ∈ body, isHeadingLine l = false) →
      body.foldl stepLine ⟨d, some h, c, s⟩
        = ⟨d, some h, (body.foldl bStep (s, c)).2, (body.foldl bStep (s, c)).1⟩ := by
  induction body with
  | nil => intro d h c s _ _; rfl
  | cons l rest ih =>
    intro d h c s hne hno
    have hsec : section_match l = none :=
      isHeadingLine_eq_false (hno l (List.mem_cons_self l rest))
    have hcur : pyTruthyOptStr (some h) = true := by
      cases h with
      | nil => exact absurd rfl hne
      | cons a b => rfl
    rw [List.foldl_cons, List.foldl_cons]
    cases hm : subsection_match l with
    | true =>
      rw [show stepLine ⟨d, some h, c, s⟩ l
          = ⟨d, some h, [], s ++ (if c.isEmpty then [] else [pyStrip c]) ++ [l]⟩ from by
        simp [stepLine, hsec, hm, hcur]]
      rw [show bStep (s, c) l
          = (s ++ (if c.isEmpty then [] else [pyStrip c]) ++ [l], []) from by
        simp [bStep, hm]]
      exact ih d h [] _ hne (fun x hx => hno x (List.mem_cons_of_mem _ hx))
    | false =>
      rw [show stepLine ⟨d, some h, c, s⟩ l
          = ⟨d, some h, c ++ '\n' :: pyStrip l, s⟩ from by
        simp [stepLine, hsec, hm]]
      rw [show bStep (s, c) l = (s, c ++ '\n' :: pyStrip l) from by
        simp [bStep, hm]]
      exact ih d h _ s hne (fun x hx => hno x (List.mem_cons_of_mem _ hx))

theorem dictInsert_fresh {d : List (Str × PContent)} {k : Str} (v : PContent)
    (h : k ∉ d.map Prod.fst) : dictInsert d k v = d ++ [(k, v)] := by
  have hany : d.any (fun p => p.1 = k) = false := by
    rw [List.any_eq_false]
    intro p hp hpk
    exact h (List.mem_map.mpr ⟨p, hp, by simpa using hpk⟩)
  simp [dictInsert, hany]

theorem flushSection_finish {d : List (Str × PContent)} {h : Str} (c : Str)
    (s : List Str) (hne : h ≠ []) :
    flushSection ⟨d, some h, c, s⟩ = dictInsert d h (finishBody (s, c)) := by
  have hE : h.isEmpty = false := by
    cases h with
    | nil => exact absurd rfl hne
    | cons a b => rfl
  cases s with
  | nil => simp [flushSection, hE, finishBody]
  | cons x xs => simp [flushSection, hE, finishBody]

theorem fold_blocks (n : Nat) :
    ∀ (lines : List Str) (d : List (Str × PContent)) (h : Str),
      lines.length ≤ n →
      (∀ l ∈ lines, isHeadingLine l = true → section_match l = some l) →
      h ≠ [] →
      (d.map Prod.fst ++ h :: lines.filter isHeadingLine).Nodup →
      flushSection (lines.foldl stepLine ⟨d, some h, [], []⟩)
        = d ++ (toBlocks (h :: lines)).map blockVal := by
  induction n with
  | zero =>
    intro lines d h hlen hfull hne hnd
    have hnil : lines = [] := List.eq_nil_of_length_eq_zero (Nat.le_zero.mp hlen)
    subst hnil
    rw [List.foldl_nil, flushSection_finish [] [] hne]
    have hfresh : h ∉ d.map Prod.fst := by
      rw [List.nodup_append] at hnd
      exact fun hmem => hnd.2.2 hmem (List.mem_cons_self _ _)
    rw [dictInsert_fresh _ hfresh]
    rfl
  | succ n ih =>
    intro lines d h hlen hfull hne hnd
    have hbodysplit := List.takeWhile_append_dropWhile
      (fun l => !isHeadingLine l) lines
    have hbodyNoHead : ∀ l ∈ lines.takeWhile (fun l => !isHeadingLine l),
        isHeadingLine l = false := by
      intro l hl
      have := List.mem_takeWhile_imp hl
      simpa using this
    rcases hq : (lines.takeWhile (fun l => !isHeadingLine l)).foldl bStep ([], [])
      with ⟨qs, qc⟩
    have hfold1 : lines.foldl stepLine ⟨d, some h, [], []⟩
        = (lines.dropWhile (fun l => !isHeadingLine l)).foldl stepLine
            ⟨d, some h, qc, qs⟩ := by
      conv_lhs => rw [← hbodysplit]
      rw [List.foldl_append, foldl_stepLine_body _ d h [] [] hne hbodyNoHead, hq]
    rw [hfold1, toBlocks_cons]
    have hblockv : blockVal (h, lines.takeWhile (fun l => !isHeadingLine l))
        = (h, finishBody (qs, qc)) := by
      rw [blockVal]
      simp only at hq ⊢
      rw [hq]
    cases hdrop : lines.dropWhile (fun l => !isHeadingLine l) with
    | nil =>
      rw [List.foldl_nil, flushSection_finish _ _ hne]
      have hfresh : h ∉ d.map Prod.fst := by
        rw [List.nodup_append] at hnd
        exact fun hmem => hnd.2.2 hmem (List.mem_cons_self _ _)
      rw [dictInsert_fresh _ hfresh]
      simp [toBlocks, hblockv]
    | cons r rest' =>
      have hr_head : isHeadingLine r = true := by
        have := dropWhile_head_prop (fun l => !isHeadingLine l) lines hdrop
        simpa using this
      have hrmem : r ∈ lines := by
        have hmem0 : r ∈ lines.dropWhile (fun l => !isHeadingLine l) := by
          rw [hdrop]; exact List.mem_cons_self _ _
        exact (List.dropWhile_sublist _).subset hmem0
      have hrfull : section_match r = some r := hfull r hrmem hr_head
      have hrne : r ≠ [] := section_match_ne_nil hrfull
      rw [List.foldl_cons]
      rw [show stepLine ⟨d, some h, qc, qs⟩ r
          = ⟨flushSection ⟨d, some h, qc, qs⟩, some r, [], []⟩ from by
        simp [stepLine, hrfull]]
      rw [flushSection_finish _ _ hne]
      have hfilter : lines.filter isHeadingLine
          = r :: rest'.filter isHeadingLine := by
        conv_lhs => rw [← hbodysplit]
        rw [List.filter_append, hdrop]
        rw [show (lines.takeWhile (fun l => !isHeadingLine l)).filter
              isHeadingLine = [] from by
          rw [List.filter_eq_nil_iff]
          intro a ha
          simp [hbodyNoHead a ha]]
        simp [List.filter_cons, hr_head]
      have hfresh : h ∉ d.map Prod.fst := by
        rw [List.nodup_append] at hnd
        exact fun hmem => hnd.2.2 hmem (List.mem_cons_self _ _)
      rw [dictInsert_fresh _ hfresh]
      have hlen' : rest'.length ≤ n := by
        have h1 : (lines.dropWhile (fun l => !isHeadingLine l)).length
            ≤ lines.length := (List.dropWhile_sublist _).length_le
        rw [hdrop] at h1
        simp only [List.length_cons] at h1
        omega
      have hfull' : ∀ l ∈ rest', isHeadingLine l = true →
          section_match l = some l := by
        intro l hl
        have hlm : l ∈ lines := by
          have hsub : l ∈ lines.dropWhile (fun l => !isHeadingLine l) := by
            rw [hdrop]; exact List.mem_cons_of_mem _ hl
          exact (List.dropWhile_sublist _).subset hsub
        exact hfull l hlm
      have hnd' : ((d ++ [(h, finishBody (qs, qc))]).map Prod.fst
          ++ r :: rest'.filter isHeadingLine).Nodup := by
        rw [hfilter] at hnd
        rw [List.map_append, List.append_assoc]
        simpa using hnd
      rw [ih rest' (d ++ [(h, finishBody (qs, qc))]) r hlen' hfull' hrne hnd']
      rw [List.map_cons, hblockv]
      simp [List.append_assoc]

theorem reconstruct_blocks_nw (bs : List (Str × List Str))
    (hOK : ∀ b ∈ bs, blockOK b.2 = true) :
    nonWS (reconstruct (bs.map blockVal))
      = linesNW ((bs.map (fun b => b.1 :: b.2)).flatten) := by
  induction bs with
  | nil => rfl
  | cons b rest ih =>
    obtain ⟨bh, bb⟩ := b
    rw [List.map_cons, List.map_cons, List.flatten_cons]
    rw [reconstruct, List.map_cons, List.flatten_cons]
    rw [nonWS_append, linesNW_append]
    rw [show ((List.map blockVal rest).map
          (fun p => p.1 ++ contentChars p.2)).flatten
        = reconstruct (rest.map blockVal) from rfl]
    rw [ih (fun x hx => hOK x (List.mem_cons_of_mem _ hx))]
    rw [show blockVal (bh, bb)
        = (bh, finishBody (bb.foldl bStep ([], []))) from rfl]
    simp only
    rw [nonWS_append,
      block_nw bb (by simpa using hOK (bh, bb) (List.mem_cons_self _ _))]
    simp [linesNW]

/-- C4 counterexample: lines before the first heading are silently
discarded, so for the input "a\n1. b\nc" the re-concatenation of the
segmented result loses the non-whitespace character 'a'. -/
theorem c4_counterexample :
    nonWS (reconstruct (split_sections (.str "a\n1. b\nc".toList)))
      ≠ nonWS "a\n1. b\nc".toList := by decide

/-- C4 (amended): segmenting and then concatenating, in original order, all
headings and all content values reconstructs the input modulo whitespace
normalization, provided the input loses nothing by construction: its first
line is a heading, every heading match spans its whole line (no colon
truncation), no heading line repeats (a repeat overwrites the earlier
entry), and no section has non-whitespace prose after its last
subsection marker (such prose is dropped at flush time).  These conditions
are the checker `wellFormed`. -/
theorem c4_amended (t : Str) (hwf : wellFormed t = true) :
    nonWS (reconstruct (split_sections (.str t))) = nonWS t := by
  cases hsp : splitLines t with
  | nil => exact absurd hsp (splitLines_ne_nil t)
  | cons l0 rest =>
    simp only [wellFormed, hsp, Bool.and_eq_true] at hwf
    obtain ⟨⟨⟨h1, h2⟩, h3⟩, h4⟩ := hwf
    have hfull : ∀ l ∈ l0 :: rest, isHeadingLine l = true →
        section_match l = some l := by
      intro l hl hh
      have hline := List.all_eq_true.mp h2 l hl
      rw [hh] at hline
      simp only [Bool.not_true, Bool.false_or] at hline
      rw [headingFull] at hline
      exact eq_of_beq hline
    have hl0full : section_match l0 = some l0 :=
      hfull l0 (List.mem_cons_self _ _) h1
    have hl0ne : l0 ≠ [] := section_match_ne_nil hl0full
    have hnd : ((l0 :: rest).filter isHeadingLine).Nodup := of_decide_eq_true h3
    rw [split_sections, runLines, hsp, List.foldl_cons]
    rw [show stepLine ⟨[], none, [], []⟩ l0 = ⟨[], some l0, [], []⟩ from by
      simp [stepLine, hl0full, flushSection]]
    rw [fold_blocks rest.length rest [] l0 le_rfl
      (fun l hl => hfull l (List.mem_cons_of_mem _ hl)) hl0ne
      (by
        simp only [List.map_nil, List.nil_append]
        simpa [List.filter_cons, h1] using hnd)]
    rw [List.nil_append]
    rw [reconstruct_blocks_nw _ (fun b hb => by
      simpa using List.all_eq_true.mp h4 b hb)]
    rw [toBlocks_flatten, ← hsp, linesNW_splitLines]

/-- C4 amended witness: a concrete well-formed two-section input with
subsection markers and interleaved prose round-trips modulo whitespace. -/
theorem c4_amended_witness :
    wellFormed "1. Alpha\nhello\n1) x\nworld\n2) y\n2. Beta\nbye".toList
      = true ∧
    nonWS (reconstruct (split_sections
        (.str "1. Alpha\nhello\n1) x\nworld\n2) y\n2. Beta\nbye".toList)))
      = nonWS "1. Alpha\nhello\n1) x\nworld\n2) y\n2. Beta\nbye".toList :=
  ⟨by decide,
   c4_amended "1. Alpha\nhello\n1) x\nworld\n2) y\n2. Beta\nbye".toList
     (by decide)⟩

end HDMedi
